import Mathlib

/-!
# Verification of `notebook_manager.py`

A shallow embedding of the personal notebook manager's core: the `Note`
data model, the JSON store (`load_notes` / `save_notes`), and the
collection operations (`add_note`, `search_notes`, `filter_by_tag`,
`edit_note`, `delete_note`).

User input that the Python code reads interactively (`input(...)`) is
modelled as explicit string parameters; the file system is modelled as an
explicit `Env` value holding the current on-disk document; wall-clock time
is an explicit string parameter.  Python strings are Lean `String`s;
`str.strip()` is `strip`, `str.lower()` is `lower` (character-wise
`Char.toLower`, adequate for the ASCII-oriented behaviour of the source),
substring containment (`a in b` on strings) is list-infix containment on
the character data, and list membership (`x in l`) is list membership.
-/

namespace NotebookManager

/-- A note record, as built by `add_note` in the source:
`{"title": ..., "content": ..., "tags": [...], "date": ...}`. -/
structure Note where
  title : String
  content : String
  tags : List String
  date : String
deriving Repr, DecidableEq

/-- Embedding of Python `str.lower()`: lowercase every character. -/
def lower (s : String) : String :=
  ⟨s.data.map Char.toLower⟩

/-- Remove leading and trailing whitespace from a character list. -/
def stripChars (cs : List Char) : List Char :=
  ((cs.dropWhile Char.isWhitespace).reverse.dropWhile Char.isWhitespace).reverse

/-- Embedding of Python `str.strip()`. -/
def strip (s : String) : String :=
  ⟨stripChars s.data⟩

/-- Embedding of Python substring containment `needle in hay` on strings. -/
def substrOf (needle hay : String) : Bool :=
  decide (needle.data <:+: hay.data)

/-! ## The JSON document model

`json.dump` / `json.load` translate between Python values and JSON text.
We model the *parsed* document as a `JValue`; serializing to text and
parsing back is the identity on this representation, so `save_notes`
writes a `JValue` and `load_notes` reads one back. -/

/-- A parsed JSON document. -/
inductive JValue where
  | null
  | bool (b : Bool)
  | num (n : Int)
  | str (s : String)
  | arr (l : List JValue)
  | obj (fields : List (String × JValue))

/-- Field lookup in a JSON object (Python `d['k']`, `None` when absent). -/
def lookupField (fields : List (String × JValue)) (key : String) : Option JValue :=
  match fields with
  | [] => none
  | (k, v) :: rest => if k = key then some v else lookupField rest key

/-- The JSON record `save_notes` writes for one note (dict insertion order
as in `add_note`). -/
def encodeNote (n : Note) : JValue :=
  .obj [("title", .str n.title), ("content", .str n.content),
        ("tags", .arr (n.tags.map .str)), ("date", .str n.date)]

/-- Read a JSON array of strings back (the `tags` field). -/
def decodeStrings : List JValue → Option (List String)
  | [] => some []
  | .str s :: rest =>
    match decodeStrings rest with
    | some ss => some (s :: ss)
    | none => none
  | _ :: _ => none

/-- Interpret a stored JSON record as a `Note`, per the persisted-document
schema `{title: string, content: string, tags: [string], date: string}`.
A record that does not fit the schema is not a well-formed note. -/
def decodeNote (v : JValue) : Option Note :=
  match v with
  | .obj fields =>
    match lookupField fields "title", lookupField fields "content",
          lookupField fields "tags", lookupField fields "date" with
    | some (.str t), some (.str c), some (.arr ts), some (.str d) =>
      match decodeStrings ts with
      | some tags => some ⟨t, c, tags, d⟩
      | none => none
    | _, _, _, _ => none
  | _ => none

/-- Interpret a list of stored records as a list of `Note`s. -/
def decodeNotes : List JValue → Option (List Note)
  | [] => some []
  | v :: vs =>
    match decodeNote v, decodeNotes vs with
    | some n, some ns => some (n :: ns)
    | _, _ => none

/-! ## The store -/

/-- The state of the `notes.json` file:
absent (`os.path.exists` is false), unreadable or not valid JSON text
(`json.load` raises `JSONDecodeError`, or opening raises `IOError`), or a
successfully parsed document. -/
inductive DiskFile where
  | absent
  | corrupt
  | doc (v : JValue)

/-- The world the store interacts with: the current file state and whether
writes succeed (`IOError` on write when not writable). -/
structure Env where
  disk : DiskFile
  writable : Bool

/-- Embedding of `load_notes`.  Returns the loaded list together with a
flag recording whether the `Warning: Could not load notes file` message
was printed.  Mirrors the source: missing file gives `[]`; a parse/read
error prints the warning and gives `[]`; a parsed document is returned
as-is when it is a list and silently replaced by `[]` otherwise. -/
def load_notes (env : Env) : List JValue × Bool :=
  match env.disk with
  | .absent => ([], false)
  | .corrupt => ([], true)
  | .doc v =>
    match v with
    | .arr l => (l, false)
    | _ => ([], false)

/-- Embedding of `save_notes`: overwrite the document with the serialized
list, returning `True` on success, `False` (leaving the disk as it was)
on `IOError`. -/
def save_notes (env : Env) (notes : List JValue) : Env × Bool :=
  if env.writable then ({ env with disk := .doc (.arr notes) }, true)
  else (env, false)

/-! ## Round-trip lemmas -/

theorem decodeStrings_map_str (ts : List String) :
    decodeStrings (ts.map JValue.str) = some ts := by
  induction ts with
  | nil => rfl
  | cons t ts ih => simp [decodeStrings, ih]

theorem decodeNote_encodeNote (n : Note) : decodeNote (encodeNote n) = some n := by
  simp [encodeNote, decodeNote, lookupField, decodeStrings_map_str]

theorem decodeNotes_map_encode (C : List Note) :
    decodeNotes (C.map encodeNote) = some C := by
  induction C with
  | nil => rfl
  | cons n ns ih => simp [decodeNotes, decodeNote_encodeNote, ih]

/-- C1: Saving a collection of well-formed notes and loading it back yields
the same collection, field-for-field and in the same order (and the load
emits no warning). -/
theorem c1_save_load_roundtrip (env : Env) (C : List Note)
    (hw : env.writable = true) :
    (save_notes env (C.map encodeNote)).2 = true ∧
    decodeNotes (load_notes (save_notes env (C.map encodeNote)).1).1 = some C ∧
    (load_notes (save_notes env (C.map encodeNote)).1).2 = false := by
  simp [save_notes, hw, load_notes, decodeNotes_map_encode]

/-- C1 witness: a concrete two-note collection round-trips through an
initially empty, writable store. -/
theorem c1_save_load_roundtrip_witness :
    (save_notes ⟨.absent, true⟩
        ([⟨"Groceries", "milk\neggs", ["home", "errand"], "2024-01-01 09:00:00"⟩,
          ⟨"Work", "report", ["Work", "Urgent"], "2024-01-02 10:00:00"⟩].map encodeNote)).2 = true ∧
    decodeNotes (load_notes (save_notes ⟨.absent, true⟩
        ([⟨"Groceries", "milk\neggs", ["home", "errand"], "2024-01-01 09:00:00"⟩,
          ⟨"Work", "report", ["Work", "Urgent"], "2024-01-02 10:00:00"⟩].map encodeNote)).1).1 =
      some [⟨"Groceries", "milk\neggs", ["home", "errand"], "2024-01-01 09:00:00"⟩,
            ⟨"Work", "report", ["Work", "Urgent"], "2024-01-02 10:00:00"⟩] ∧
    (load_notes (save_notes ⟨.absent, true⟩
        ([⟨"Groceries", "milk\neggs", ["home", "errand"], "2024-01-01 09:00:00"⟩,
          ⟨"Work", "report", ["Work", "Urgent"], "2024-01-02 10:00:00"⟩].map encodeNote)).1).2 = false :=
  c1_save_load_roundtrip ⟨.absent, true⟩ _ rfl

/-- C7 as stated is false: a document that parses to a non-sequence (here
the JSON string `"oops"`) yields the empty collection but *no* warning —
the warning is printed only on a parse/read error. -/
theorem c7_nonlist_no_warning_counterexample :
    load_notes ⟨.doc (.str "oops"), true⟩ = ([], false) := rfl

/-- C7 (amended): `load_notes` never raises (it is total here): an absent
file yields the empty collection; malformed serialization yields the empty
collection with a warning; a document parsing to a non-sequence yields the
empty collection silently; a list document is returned as-is.  `load_notes`
performs no write, so the on-disk content is untouched. -/
theorem c7_load_notes_total_behavior (env : Env) :
    (env.disk = .absent → load_notes env = ([], false)) ∧
    (env.disk = .corrupt → load_notes env = ([], true)) ∧
    (∀ v, env.disk = .doc v → (∀ l, v ≠ .arr l) → load_notes env = ([], false)) ∧
    (∀ l, env.disk = .doc (.arr l) → load_notes env = (l, false)) := by
  refine ⟨fun h => ?_, fun h => ?_, fun v h hv => ?_, fun l h => ?_⟩
  · simp [load_notes, h]
  · simp [load_notes, h]
  · cases v with
    | arr l => exact absurd rfl (hv l)
    | _ => simp [load_notes, h]
  · simp [load_notes, h]

/-- C7 witness: concrete corrupt and absent files load as empty, with and
without the warning respectively. -/
theorem c7_load_notes_total_behavior_witness :
    load_notes ⟨.corrupt, true⟩ = ([], true) ∧
    load_notes ⟨.absent, true⟩ = ([], false) :=
  ⟨(c7_load_notes_total_behavior ⟨.corrupt, true⟩).2.1 rfl,
   (c7_load_notes_total_behavior ⟨.absent, true⟩).1 rfl⟩

/-! ## Shared input handling -/

/-- Value of a list of decimal digit characters. -/
def digitsToNat (cs : List Char) : Nat :=
  cs.foldl (fun a c => a * 10 + (c.toNat - 48)) 0

/-- Embedding of Python `int(s)` for the position prompts: optional sign,
then decimal digits, surrounding whitespace ignored; anything else raises
`ValueError`, modelled as `none`. -/
def parseInt (s : String) : Option Int :=
  match (strip s).data with
  | [] => none
  | c :: cs =>
    if c = '-' then
      if cs.isEmpty then none
      else if cs.all Char.isDigit then some (-(digitsToNat cs : Int)) else none
    else if c = '+' then
      if cs.isEmpty then none
      else if cs.all Char.isDigit then some (digitsToNat cs : Int) else none
    else if (c :: cs).all Char.isDigit then some (digitsToNat (c :: cs) : Int)
    else none

/-- Split a character list at every comma (Python `s.split(',')`). -/
def splitOnComma : List Char → List (List Char)
  | [] => [[]]
  | c :: rest =>
    if c = ',' then [] :: splitOnComma rest
    else
      match splitOnComma rest with
      | [] => [[c]]
      | g :: gs => (c :: g) :: gs

/-- Embedding of `[tag.strip() for tag in s.split(',') if tag.strip()]`. -/
def splitTags (s : String) : List String :=
  (((splitOnComma s.data).map fun cs => strip ⟨cs⟩).filter fun t => t ≠ "")

/-- Embedding of the multi-line content prompt: the entered lines joined
with newlines, then stripped (`"\n".join(content_lines).strip()`). -/
def joinLines (lines : List String) : String :=
  strip ⟨(List.intersperse ['\n'] (lines.map String.data)).flatten⟩

/-! ## Search -/

/-- Embedding of `search_notes`.  The raw keyword is stripped and
lowercased; if the result is empty the operation is a no-op (`none`);
otherwise the matching notes — keyword a substring of the lowercased
title or of the lowercased content — are returned in collection order. -/
def search_notes (notes : List Note) (rawKeyword : String) : Option (List Note) :=
  let keyword := lower (strip rawKeyword)
  if keyword = "" then none
  else some (notes.filter (fun n =>
    substrOf keyword (lower n.title) || substrOf keyword (lower n.content)))

/-! ## Filter by tag -/

/-- Outcome of `filter_by_tag`: abort because no note carries any tag
(before the tag prompt is ever shown), abort on an empty query, or a
result list. -/
inductive FilterResult where
  | noTags
  | emptyTag
  | results (rs : List Note)
deriving DecidableEq

/-- The notes a `filter_by_tag` outcome displays as matches. -/
def FilterResult.displayed : FilterResult → List Note
  | .results rs => rs
  | _ => []

/-- Embedding of `filter_by_tag`.  The source first collects the set of
all tags across the collection and returns before prompting when that set
is empty; only the emptiness of the set (and its display) is observed, so
the set is modelled by the concatenation of all tag lists.  Otherwise the
stripped, lowercased query is matched for equality against the lowercased
tags of each note. -/
def filter_by_tag (notes : List Note) (rawTag : String) : FilterResult :=
  if (notes.map Note.tags).flatten = [] then .noTags
  else
    let tag := lower (strip rawTag)
    if tag = "" then .emptyTag
    else .results (notes.filter (fun n => decide (tag ∈ n.tags.map lower)))

theorem lower_eq_empty {s : String} (h : lower s = "") : s = "" := by
  cases s with
  | mk l =>
    have hd := congrArg String.data h
    simp [lower] at hd
    simp [hd]

/-- C2: with a keyword that is empty after stripping, search is a no-op
that performs no matching; with a non-empty keyword it returns exactly the
notes whose lowercased title or lowercased content contains the lowercased
keyword as a substring, in collection order (the result is a sublist of
the collection).  The matching condition mentions only `title` and
`content`: tags are never consulted. -/
theorem c2_search_characterization (notes : List Note) (raw : String) :
    (strip raw = "" → search_notes notes raw = none) ∧
    (strip raw ≠ "" →
      ∃ r, search_notes notes raw = some r ∧
        r.Sublist notes ∧
        ∀ n, n ∈ r ↔ n ∈ notes ∧
          ((lower (strip raw)).data <:+: (lower n.title).data ∨
           (lower (strip raw)).data <:+: (lower n.content).data)) := by
  constructor
  · intro h
    simp [search_notes, h, lower]
  · intro h
    have hk : lower (strip raw) ≠ "" := fun hc => h (lower_eq_empty hc)
    refine ⟨notes.filter (fun n =>
        substrOf (lower (strip raw)) (lower n.title) ||
        substrOf (lower (strip raw)) (lower n.content)),
      ?_, List.filter_sublist notes, fun n => ?_⟩
    · simp [search_notes, hk]
    · simp [List.mem_filter, substrOf]

/-- C2 witness: a blank keyword is a no-op on a concrete collection. -/
theorem c2_search_characterization_witness :
    search_notes [⟨"T", "work today", [], "d"⟩] "  " = none :=
  (c2_search_characterization [⟨"T", "work today", [], "d"⟩] "  ").1 rfl

/-- C3: for a non-empty (after stripping) tag query, the notes displayed
by filter-by-tag are exactly those having some tag whose lowercase equals
the lowercased query (exact match, not substring), in collection order.
When no note carries any tag, the operation shows no notes and no note
matches, so the characterization still holds. -/
theorem c3_filter_by_tag_exact_match (notes : List Note) (raw : String)
    (h : strip raw ≠ "") :
    (filter_by_tag notes raw).displayed
      = notes.filter (fun n => decide (∃ t ∈ n.tags, lower t = lower (strip raw))) ∧
    ((filter_by_tag notes raw).displayed).Sublist notes ∧
    (∀ n, n ∈ (filter_by_tag notes raw).displayed ↔
      n ∈ notes ∧ ∃ t ∈ n.tags, lower t = lower (strip raw)) := by
  have hk : lower (strip raw) ≠ "" := fun hc => h (lower_eq_empty hc)
  have hmain : (filter_by_tag notes raw).displayed
      = notes.filter (fun n => decide (∃ t ∈ n.tags, lower t = lower (strip raw))) := by
    by_cases hflat : (notes.map Note.tags).flatten = []
    · have hall : ∀ n ∈ notes, n.tags = [] := by
        intro n hn
        exact (List.flatten_eq_nil_iff.mp hflat) n.tags (List.mem_map_of_mem Note.tags hn)
      have : notes.filter (fun n => decide (∃ t ∈ n.tags, lower t = lower (strip raw))) = [] := by
        rw [List.filter_eq_nil_iff]
        intro n hn
        simp [hall n hn]
      simp [filter_by_tag, hflat, FilterResult.displayed, this]
    · have : filter_by_tag notes raw
          = .results (notes.filter (fun n => decide (lower (strip raw) ∈ n.tags.map lower))) := by
        simp [filter_by_tag, hflat, hk]
      rw [this]
      show notes.filter _ = notes.filter _
      refine List.filter_congr (fun n _ => ?_)
      simp only [decide_eq_decide, List.mem_map]
  refine ⟨hmain, ?_, fun n => ?_⟩
  · rw [hmain]; exact List.filter_sublist notes
  · rw [hmain]
    simp [List.mem_filter]

/-- C3 witness: a note tagged `["Work","Urgent"]` matches the query
`"work"` but not `"wor"`. -/
theorem c3_filter_by_tag_exact_match_witness :
    (filter_by_tag [⟨"T", "c", ["Work", "Urgent"], "d"⟩] "work").displayed
      = [⟨"T", "c", ["Work", "Urgent"], "d"⟩].filter
          (fun n => decide (∃ t ∈ n.tags, lower t = lower (strip "work"))) ∧
    (filter_by_tag [⟨"T", "c", ["Work", "Urgent"], "d"⟩] "wor").displayed
      = [⟨"T", "c", ["Work", "Urgent"], "d"⟩].filter
          (fun n => decide (∃ t ∈ n.tags, lower t = lower (strip "wor"))) :=
  ⟨(c3_filter_by_tag_exact_match [⟨"T", "c", ["Work", "Urgent"], "d"⟩] "work" (by decide)).1,
   (c3_filter_by_tag_exact_match [⟨"T", "c", ["Work", "Urgent"], "d"⟩] "wor" (by decide)).1⟩

/-- C9: when every note's tags list is empty (in particular on an empty
collection), filter-by-tag aborts before the tag prompt, whatever query
the caller intended: the outcome is `noTags`, with no matching done. -/
theorem c9_filter_noop_when_untagged (notes : List Note) (raw : String)
    (h : ∀ n ∈ notes, n.tags = []) :
    filter_by_tag notes raw = .noTags := by
  have hflat : (notes.map Note.tags).flatten = [] := by
    rw [List.flatten_eq_nil_iff]
    intro l hl
    rcases List.mem_map.mp hl with ⟨n, hn, rfl⟩
    exact h n hn
  simp [filter_by_tag, hflat]

/-- C9 witness: an untagged singleton collection and the query `"work"`. -/
theorem c9_filter_noop_when_untagged_witness :
    filter_by_tag [⟨"T", "c", [], "d"⟩] "work" = .noTags :=
  c9_filter_noop_when_untagged [⟨"T", "c", [], "d"⟩] "work" (by decide)

/-! ## Mutating operations

Each mutating operation receives the environment and the current
collection together with the strings the source reads interactively, and
returns the new environment, the new collection, and whether `save_notes`
was invoked. -/

/-- Result of a mutating operation: the environment after any save, the
in-memory collection, and whether a save was attempted. -/
structure OpResult where
  env : Env
  notes : List Note
  saveAttempted : Bool

/-- Serialize and save the collection (the `save_notes(notes)` calls). -/
def runSave (env : Env) (notes : List Note) : Env × Bool :=
  save_notes env (notes.map encodeNote)

/-- In-place update of the element at an index, as Python's
`note = notes[i]; note[...] = ...` aliasing mutates the list entry. -/
def modifyAt (f : Note → Note) : List Note → Nat → List Note
  | [], _ => []
  | x :: xs, 0 => f x :: xs
  | x :: xs, i + 1 => x :: modifyAt f xs i

/-- The inputs `add_note` reads: the title (re-prompted by the source
until non-empty after stripping), the content lines (the loop ends at the
first blank line, so the entered lines are collected as a list), the
comma-separated tags line, and the current wall-clock time string. -/
structure AddInput where
  rawTitle : String
  contentLines : List String
  tagsInput : String
  now : String

/-- The note `add_note` constructs from its inputs. -/
def mkNote (a : AddInput) : Note :=
  { title := strip a.rawTitle
    content := joinLines a.contentLines
    tags := splitTags (strip a.tagsInput)
    date := a.now }

/-- Embedding of `add_note`: append the new note to the end of the
collection, then save.  The note stays in the collection whatever the save
outcome. -/
def add_note (env : Env) (notes : List Note) (a : AddInput) : OpResult :=
  let notes' := notes ++ [mkNote a]
  ⟨(runSave env notes').1, notes', true⟩

/-- A sequence of `add_note` calls, threading environment and collection. -/
def addMany (env : Env) (notes : List Note) : List AddInput → Env × List Note
  | [] => (env, notes)
  | a :: rest =>
    let r := add_note env notes a
    addMany r.env r.notes rest

/-- The inputs `edit_note` reads after showing the list: the position
string, the replacement title, the `Edit content? (y/n)` answer, the new
content lines, and the replacement tags line. -/
structure EditInputs where
  posInput : String
  newTitle : String
  editContentChoice : String
  contentLines : List String
  newTags : String

/-- The field updates `edit_note` applies to the selected note: each field
is replaced only when the corresponding input is non-empty (content only
when the `y` answer was given), and the date is never touched. -/
def editFields (inp : EditInputs) (note : Note) : Note :=
  let note1 :=
    if strip inp.newTitle = "" then note
    else { note with title := strip inp.newTitle }
  let note2 :=
    if lower (strip inp.editContentChoice) = "y" then
      if joinLines inp.contentLines = "" then note1
      else { note1 with content := joinLines inp.contentLines }
    else note1
  if strip inp.newTags = "" then note2
  else { note2 with tags := splitTags (strip inp.newTags) }

/-- Embedding of `edit_note`: empty collection aborts before any prompt;
a non-numeric position aborts; `0` cancels; an out-of-range position
aborts; otherwise the selected note's fields are updated and the
collection is saved. -/
def edit_note (env : Env) (notes : List Note) (inp : EditInputs) : OpResult :=
  if notes = [] then ⟨env, notes, false⟩
  else
    match parseInt inp.posInput with
    | none => ⟨env, notes, false⟩
    | some choice =>
      if choice = 0 then ⟨env, notes, false⟩
      else if choice < 1 ∨ choice > (notes.length : Int) then ⟨env, notes, false⟩
      else
        let notes' := modifyAt (editFields inp) notes (choice - 1).toNat
        ⟨(runSave env notes').1, notes', true⟩

/-- Embedding of `delete_note`: the same empty / non-numeric / `0` /
out-of-range handling as `edit_note`; then the note is removed only when
the stripped, lowercased confirmation is exactly `"y"`, and the collection
is saved; any other confirmation aborts with no save. -/
def delete_note (env : Env) (notes : List Note)
    (posInput confirmInput : String) : OpResult :=
  if notes = [] then ⟨env, notes, false⟩
  else
    match parseInt posInput with
    | none => ⟨env, notes, false⟩
    | some choice =>
      if choice = 0 then ⟨env, notes, false⟩
      else if choice < 1 ∨ choice > (notes.length : Int) then ⟨env, notes, false⟩
      else if lower (strip confirmInput) = "y" then
        let notes' := notes.eraseIdx (choice - 1).toNat
        ⟨(runSave env notes').1, notes', true⟩
      else ⟨env, notes, false⟩

/-! ## Index lemmas for `modifyAt` and `List.eraseIdx` -/

theorem getElem?_modifyAt_self (f : Note → Note) (l : List Note) (i : Nat) :
    (modifyAt f l i)[i]? = (l[i]?).map f := by
  induction l generalizing i with
  | nil => simp [modifyAt]
  | cons x xs ih =>
    cases i with
    | zero => simp [modifyAt]
    | succ i => simpa [modifyAt] using ih i

theorem getElem?_modifyAt_ne (f : Note → Note) (l : List Note) (i j : Nat)
    (h : j ≠ i) : (modifyAt f l i)[j]? = l[j]? := by
  induction l generalizing i j with
  | nil => simp [modifyAt]
  | cons x xs ih =>
    cases i with
    | zero =>
      cases j with
      | zero => exact absurd rfl h
      | succ j => simp [modifyAt]
    | succ i =>
      cases j with
      | zero => simp [modifyAt]
      | succ j => simpa [modifyAt] using ih i j (fun hc => h (by rw [hc]))

theorem getElem?_eraseIdx_lt (l : List Note) (i j : Nat) (h : j < i) :
    (l.eraseIdx i)[j]? = l[j]? := by
  induction l generalizing i j with
  | nil => simp [List.eraseIdx]
  | cons x xs ih =>
    cases i with
    | zero => omega
    | succ i =>
      cases j with
      | zero => simp [List.eraseIdx]
      | succ j => simpa [List.eraseIdx] using ih i j (by omega)

theorem getElem?_eraseIdx_ge (l : List Note) (i j : Nat) (h : i ≤ j) :
    (l.eraseIdx i)[j]? = l[j + 1]? := by
  induction l generalizing i j with
  | nil => simp [List.eraseIdx]
  | cons x xs ih =>
    cases i with
    | zero => simp [List.eraseIdx]
    | succ i =>
      cases j with
      | zero => omega
      | succ j => simpa [List.eraseIdx] using ih i j (by omega)

/-! ## Frame lemmas for `editFields` -/

theorem editFields_date (inp : EditInputs) (n : Note) :
    (editFields inp n).date = n.date := by
  unfold editFields
  by_cases h1 : strip inp.newTitle = "" <;>
    by_cases h2 : lower (strip inp.editContentChoice) = "y" <;>
      by_cases h3 : joinLines inp.contentLines = "" <;>
        by_cases h4 : strip inp.newTags = "" <;>
          simp [h1, h2, h3, h4]

theorem editFields_title_of_empty (inp : EditInputs) (n : Note)
    (h : strip inp.newTitle = "") : (editFields inp n).title = n.title := by
  unfold editFields
  by_cases h2 : lower (strip inp.editContentChoice) = "y" <;>
    by_cases h3 : joinLines inp.contentLines = "" <;>
      by_cases h4 : strip inp.newTags = "" <;>
        simp [h, h2, h3, h4]

theorem editFields_tags_of_empty (inp : EditInputs) (n : Note)
    (h : strip inp.newTags = "") : (editFields inp n).tags = n.tags := by
  unfold editFields
  by_cases h1 : strip inp.newTitle = "" <;>
    by_cases h2 : lower (strip inp.editContentChoice) = "y" <;>
      by_cases h3 : joinLines inp.contentLines = "" <;>
        simp [h, h1, h2, h3]

/-! ## Edit -/

/-- C5: for a valid position, edit replaces only the fields supplied: the
date is never mutated, an empty title input keeps the old title, and when
only a new content is supplied (empty title and tags inputs) the title,
tags and date are all identical to before; every other note of the
collection is untouched. -/
theorem c5_edit_frame (env : Env) (notes : List Note) (inp : EditInputs) (k : Int)
    (hp : parseInt inp.posInput = some k) (h1 : 1 ≤ k)
    (h2 : k ≤ (notes.length : Int)) :
    ∃ old upd, notes[(k - 1).toNat]? = some old ∧
      (edit_note env notes inp).notes[(k - 1).toNat]? = some upd ∧
      upd.date = old.date ∧
      (strip inp.newTitle = "" → upd.title = old.title) ∧
      (strip inp.newTitle = "" → strip inp.newTags = "" →
        upd.title = old.title ∧ upd.tags = old.tags ∧ upd.date = old.date) ∧
      (∀ j : Nat, j ≠ (k - 1).toNat →
        (edit_note env notes inp).notes[j]? = notes[j]?) := by
  have hne : notes ≠ [] := by
    intro hn
    rw [hn] at h2
    simp at h2
    omega
  have hk0 : ¬ k = 0 := by omega
  have hr : ¬ (k < 1 ∨ k > (notes.length : Int)) := by omega
  have hstep : (edit_note env notes inp).notes
      = modifyAt (editFields inp) notes (k - 1).toNat := by
    simp [edit_note, hne, hp, hk0, hr]
  have hi : (k - 1).toNat < notes.length := by omega
  refine ⟨notes.get ⟨(k - 1).toNat, hi⟩, editFields inp (notes.get ⟨(k - 1).toNat, hi⟩),
    ?_, ?_, editFields_date inp _, fun ht => editFields_title_of_empty inp _ ht,
    fun ht htag => ⟨editFields_title_of_empty inp _ ht,
      editFields_tags_of_empty inp _ htag, editFields_date inp _⟩,
    fun j hj => ?_⟩
  · rw [List.getElem?_eq_getElem hi]
    rfl
  · rw [hstep, getElem?_modifyAt_self, List.getElem?_eq_getElem hi]
    rfl
  · rw [hstep, getElem?_modifyAt_ne _ _ _ _ hj]

/-- C5 witness: editing only the content of the second of two concrete
notes keeps its title, tags and date. -/
theorem c5_edit_frame_witness :
    ∃ old upd,
      ([⟨"A", "a", ["t"], "d1"⟩, ⟨"B", "b", ["u"], "d2"⟩] :
        List Note)[((2 : Int) - 1).toNat]? = some old ∧
      (edit_note ⟨.absent, true⟩ [⟨"A", "a", ["t"], "d1"⟩, ⟨"B", "b", ["u"], "d2"⟩]
        ⟨"2", "", "y", ["fresh"], ""⟩).notes[((2 : Int) - 1).toNat]? = some upd ∧
      upd.title = old.title ∧ upd.tags = old.tags ∧ upd.date = old.date := by
  obtain ⟨old, upd, ha, hb, hdate, -, honly, -⟩ :=
    c5_edit_frame ⟨.absent, true⟩ [⟨"A", "a", ["t"], "d1"⟩, ⟨"B", "b", ["u"], "d2"⟩]
      ⟨"2", "", "y", ["fresh"], ""⟩ 2 (by decide) (by decide) (by decide)
  obtain ⟨htitle, htags, -⟩ := honly (by decide) (by decide)
  exact ⟨old, upd, ha, hb, htitle, htags, hdate⟩

/-- C6: for both edit and delete, position `0`, a non-numeric position,
and any out-of-range position leave the environment and the collection
unchanged with no persistence attempt. -/
theorem c6_invalid_position_no_mutation (env : Env) (notes : List Note)
    (inp : EditInputs) (posInput confirmInput : String) :
    (parseInt inp.posInput = some 0 → edit_note env notes inp = ⟨env, notes, false⟩) ∧
    (parseInt inp.posInput = none → edit_note env notes inp = ⟨env, notes, false⟩) ∧
    (∀ k : Int, parseInt inp.posInput = some k →
      (k < 1 ∨ k > (notes.length : Int)) →
      edit_note env notes inp = ⟨env, notes, false⟩) ∧
    (parseInt posInput = some 0 →
      delete_note env notes posInput confirmInput = ⟨env, notes, false⟩) ∧
    (parseInt posInput = none →
      delete_note env notes posInput confirmInput = ⟨env, notes, false⟩) ∧
    (∀ k : Int, parseInt posInput = some k →
      (k < 1 ∨ k > (notes.length : Int)) →
      delete_note env notes posInput confirmInput = ⟨env, notes, false⟩) := by
  refine ⟨fun hp => ?_, fun hp => ?_, fun k hp hr => ?_,
          fun hp => ?_, fun hp => ?_, fun k hp hr => ?_⟩ <;>
    by_cases hne : notes = []
  · simp [edit_note, hne]
  · simp [edit_note, hne, hp]
  · simp [edit_note, hne]
  · simp [edit_note, hne, hp]
  · simp [edit_note, hne]
  · by_cases hk0 : k = 0
    · simp [edit_note, hne, hp, hk0]
    · simp [edit_note, hne, hp, hk0, hr]
  · simp [delete_note, hne]
  · simp [delete_note, hne, hp]
  · simp [delete_note, hne]
  · simp [delete_note, hne, hp]
  · simp [delete_note, hne]
  · by_cases hk0 : k = 0
    · simp [delete_note, hne, hp, hk0]
    · simp [delete_note, hne, hp, hk0, hr]

/-- C6 witness: on a concrete two-note collection, position `0` cancels
edit, position `3` (length + 1) is rejected by delete, and the
non-numeric position `"x"` is rejected by edit — all without mutation. -/
theorem c6_invalid_position_no_mutation_witness :
    edit_note ⟨.absent, true⟩ [⟨"A", "a", [], "d1"⟩, ⟨"B", "b", [], "d2"⟩]
        ⟨"0", "T", "n", [], ""⟩
      = ⟨⟨.absent, true⟩, [⟨"A", "a", [], "d1"⟩, ⟨"B", "b", [], "d2"⟩], false⟩ ∧
    delete_note ⟨.absent, true⟩ [⟨"A", "a", [], "d1"⟩, ⟨"B", "b", [], "d2"⟩] "3" "y"
      = ⟨⟨.absent, true⟩, [⟨"A", "a", [], "d1"⟩, ⟨"B", "b", [], "d2"⟩], false⟩ ∧
    edit_note ⟨.absent, true⟩ [⟨"A", "a", [], "d1"⟩, ⟨"B", "b", [], "d2"⟩]
        ⟨"x", "T", "n", [], ""⟩
      = ⟨⟨.absent, true⟩, [⟨"A", "a", [], "d1"⟩, ⟨"B", "b", [], "d2"⟩], false⟩ :=
  ⟨(c6_invalid_position_no_mutation ⟨.absent, true⟩ _ ⟨"0", "T", "n", [], ""⟩ "3" "y").1
      (by decide),
   (c6_invalid_position_no_mutation ⟨.absent, true⟩ _ ⟨"0", "T", "n", [], ""⟩ "3" "y").2.2.2.2.2
      3 (by decide) (by norm_num),
   (c6_invalid_position_no_mutation ⟨.absent, true⟩ _ ⟨"x", "T", "n", [], ""⟩ "3" "y").2.1
      (by decide)⟩

/-! ## Delete -/

/-- C4: deleting at a valid position `k` with an affirmative confirmation
removes exactly the note previously at position `k`: the length drops by
one, positions before `k` are unchanged, and every note previously at a
later position moves down by one (relative order preserved). -/
theorem c4_delete_shifts (env : Env) (notes : List Note)
    (posInput confirmInput : String) (k : Int)
    (hp : parseInt posInput = some k) (h1 : 1 ≤ k)
    (h2 : k ≤ (notes.length : Int))
    (hc : lower (strip confirmInput) = "y") :
    (delete_note env notes posInput confirmInput).notes
      = notes.eraseIdx (k - 1).toNat ∧
    (delete_note env notes posInput confirmInput).notes.length
      = notes.length - 1 ∧
    (∀ j : Nat, j < (k - 1).toNat →
      (delete_note env notes posInput confirmInput).notes[j]? = notes[j]?) ∧
    (∀ j : Nat, (k - 1).toNat ≤ j →
      (delete_note env notes posInput confirmInput).notes[j]? = notes[j + 1]?) := by
  have hne : notes ≠ [] := by
    intro hn
    rw [hn] at h2
    simp at h2
    omega
  have hk0 : ¬ k = 0 := by omega
  have hr : ¬ (k < 1 ∨ k > (notes.length : Int)) := by omega
  have hi : (k - 1).toNat < notes.length := by omega
  have hstep : (delete_note env notes posInput confirmInput).notes
      = notes.eraseIdx (k - 1).toNat := by
    simp [delete_note, hne, hp, hk0, hr, hc]
  refine ⟨hstep, ?_, fun j hj => ?_, fun j hj => ?_⟩
  · rw [hstep]
    exact List.length_eraseIdx_of_lt hi
  · rw [hstep, getElem?_eraseIdx_lt _ _ _ hj]
  · rw [hstep, getElem?_eraseIdx_ge _ _ _ hj]

/-- C4 witness: deleting position 2 of a concrete three-note collection
with confirmation `" Y "`. -/
theorem c4_delete_shifts_witness :
    (delete_note ⟨.absent, true⟩
        [⟨"A", "a", [], "d1"⟩, ⟨"B", "b", [], "d2"⟩, ⟨"C", "c", [], "d3"⟩]
        "2" " Y ").notes
      = [⟨"A", "a", [], "d1"⟩, ⟨"B", "b", [], "d2"⟩, ⟨"C", "c", [], "d3"⟩].eraseIdx
          ((2 : Int) - 1).toNat :=
  (c4_delete_shifts ⟨.absent, true⟩
    [⟨"A", "a", [], "d1"⟩, ⟨"B", "b", [], "d2"⟩, ⟨"C", "c", [], "d3"⟩]
    "2" " Y " 2 (by decide) (by decide) (by decide) (by decide)).1

/-- C10: at a valid position, delete removes a note (and attempts a save)
exactly when the stripped, lowercased confirmation is the string `"y"`;
any other confirmation — including `"yes"` — aborts with the environment
and collection unchanged and no persistence attempt. -/
theorem c10_delete_needs_exact_y (env : Env) (notes : List Note)
    (posInput confirmInput : String) (k : Int)
    (hp : parseInt posInput = some k) (h1 : 1 ≤ k)
    (h2 : k ≤ (notes.length : Int)) :
    (lower (strip confirmInput) = "y" →
      (delete_note env notes posInput confirmInput).notes.length
          = notes.length - 1 ∧
      (delete_note env notes posInput confirmInput).saveAttempted = true) ∧
    (lower (strip confirmInput) ≠ "y" →
      delete_note env notes posInput confirmInput = ⟨env, notes, false⟩) := by
  have hne : notes ≠ [] := by
    intro hn
    rw [hn] at h2
    simp at h2
    omega
  have hk0 : ¬ k = 0 := by omega
  have hr : ¬ (k < 1 ∨ k > (notes.length : Int)) := by omega
  have hi : (k - 1).toNat < notes.length := by omega
  constructor
  · intro hc
    constructor
    · have := (c4_delete_shifts env notes posInput confirmInput k hp h1 h2 hc).2.1
      exact this
    · simp [delete_note, hne, hp, hk0, hr, hc]
  · intro hc
    simp [delete_note, hne, hp, hk0, hr, hc]

/-- C10 witness: the confirmation `"yes"` does not delete from a concrete
one-note collection. -/
theorem c10_delete_needs_exact_y_witness :
    delete_note ⟨.absent, true⟩ [⟨"A", "a", [], "d1"⟩] "1" "yes"
      = ⟨⟨.absent, true⟩, [⟨"A", "a", [], "d1"⟩], false⟩ :=
  (c10_delete_needs_exact_y ⟨.absent, true⟩ [⟨"A", "a", [], "d1"⟩] "1" "yes" 1
    (by decide) (by decide) (by decide)).2 (by decide)

/-! ## Add -/

theorem addMany_eq (inputs : List AddInput) : ∀ (env : Env) (notes : List Note),
    (addMany env notes inputs).2 = notes ++ inputs.map mkNote := by
  induction inputs with
  | nil => intro env notes; simp [addMany]
  | cons a rest ih => intro env notes; simp [addMany, add_note, ih]

/-- C8: add appends the new note to the end of the collection: after `N`
adds with non-empty titles the collection has grown by exactly `N`, in
insertion order; and a single add appends its note for *every*
environment — in particular one where the save fails — so the note
remains in memory with no rollback. -/
theorem c8_add_appends (env : Env) (notes : List Note) (inputs : List AddInput)
    (_h : ∀ a ∈ inputs, strip a.rawTitle ≠ "") :
    (addMany env notes inputs).2 = notes ++ inputs.map mkNote ∧
    (addMany env notes inputs).2.length = notes.length + inputs.length ∧
    (∀ env0 notes0 a, (add_note env0 notes0 a).notes = notes0 ++ [mkNote a]) := by
  refine ⟨addMany_eq inputs env notes, ?_, fun env0 notes0 a => rfl⟩
  rw [addMany_eq inputs env notes]
  simp

/-- C8 witness: two concrete adds from the empty collection, the second
against a non-writable store, still yield both notes in insertion order. -/
theorem c8_add_appends_witness :
    (addMany ⟨.absent, false⟩ []
        [⟨"Groceries", ["milk", "eggs"], "home,errand", "t1"⟩,
         ⟨"Work", ["report"], "", "t2"⟩]).2
      = [] ++ [⟨"Groceries", ["milk", "eggs"], "home,errand", "t1"⟩,
               ⟨"Work", ["report"], "", "t2"⟩].map mkNote :=
  (c8_add_appends ⟨.absent, false⟩ []
    [⟨"Groceries", ["milk", "eggs"], "home,errand", "t1"⟩,
     ⟨"Work", ["report"], "", "t2"⟩] (by decide)).1

end NotebookManager
